import Mathlib

/-!
# goimportgraph: a verification development

Shallow embedding of `goimportgraph/main.go`.

* Go strings are lists of Unicode code points (`GoString`), so the branch of
  `strconv.Quote` for bytes that are not valid UTF-8 has no counterpart; a Go
  `error` is represented by the text its `Error()` method returns.
* A Go map that is only ranged over is represented by one enumeration of its
  entries; results that must not depend on the enumeration order are stated
  for all enumerations.
* Collaborators outside the file (`exec.LookPath`, `gotool.ImportPaths`,
  `os.Getwd`, `bctx.Import`, the import-graph builders, the `dot` subprocess,
  `openutil.DisplayHTMLInBrowser`) are fields of an environment record, and
  every call made to them is recorded in an event trace.
* The request handler is a list of statements run by a transition system in
  which goroutines interleave arbitrarily and a clock counts nanoseconds:
  `time.Sleep(d)` keeps a goroutine from running for at least `d`, and a channel
  send may complete at any instant at which its goroutine may run.
-/

namespace GoImportGraph

/-! ## Strings and `%q` -/

/-- Go string, as the sequence of its code points. -/
abbrev GoString := List Char

/-- The double quote character, U+0022. -/
def dquote : Char := Char.ofNat 34

/-- The backslash character, U+005C. -/
def backslash : Char := Char.ofNat 92

/-- `strconv.IsPrint`: the Latin-1 fast path is written out; `tbl` stands for the
Unicode tables consulted above U+00FF. -/
def IsPrint (tbl : Nat → Bool) (r : Nat) : Bool :=
  if r ≤ 0xFF then
    if 0x20 ≤ r ∧ r ≤ 0x7E then true
    else if 0xA1 ≤ r ∧ r ≤ 0xFF then r != 0xAD
    else false
  else tbl r

/-- Digit `lowerhex[n & 0xF]` of `strconv`. -/
def lowerhex (n : Nat) : Char :=
  "0123456789abcdef".toList.getD (n % 16) '0'

/-- The hexadecimal digits `lowerhex[r>>s & 0xF]` for `s = 4*(n-1), ..., 4, 0`. -/
def hexDigits (r : Nat) : Nat → List Char
  | 0 => []
  | n + 1 => lowerhex (r / 16 ^ n) :: hexDigits r n

/-- `strconv.appendEscapedRune` with `quote = '"'`, `ASCIIonly = false` and
`graphicOnly = false`, as `strconv.Quote` calls it: the characters appended for rune `c`. -/
def appendEscapedRune (tbl : Nat → Bool) (c : Char) : List Char :=
  if c = dquote ∨ c = backslash then [backslash, c]
  else if IsPrint tbl c.toNat then [c]
  else if c.toNat = 7 then [backslash, 'a']
  else if c.toNat = 8 then [backslash, 'b']
  else if c.toNat = 12 then [backslash, 'f']
  else if c.toNat = 10 then [backslash, 'n']
  else if c.toNat = 13 then [backslash, 'r']
  else if c.toNat = 9 then [backslash, 't']
  else if c.toNat = 11 then [backslash, 'v']
  else if c.toNat < 0x20 ∨ c.toNat = 0x7F then backslash :: 'x' :: hexDigits c.toNat 2
  else if c.toNat < 0x10000 then backslash :: 'u' :: hexDigits c.toNat 4
  else backslash :: 'U' :: hexDigits c.toNat 8

/-- `strconv.Quote`, which the verb `%q` applies to a string operand: the escaped runes
between two double quotes. -/
def Quote (tbl : Nat → Bool) (s : GoString) : GoString :=
  dquote :: (s.flatMap (appendEscapedRune tbl) ++ [dquote])

/-! ## The resolved set -/

/-- Lines 63-66 of `run`: `importPathsSet`, a `map[string]bool` read through
`importPathsSet[k]` (a missing key reads `false`), filled with `true` for
every import path. -/
def importPathsSet (importPaths : List GoString) : GoString → Bool :=
  importPaths.foldl (fun m importPath => fun k => if k = importPath then true else m k)
    (fun _ => false)

/-! ## The forward edge map and the filter loop -/

/-- One enumeration of an `importgraph.Graph` (`map[string]map[string]bool`): the
entries in the order `range` yields them. The code reads an inner map only through
`for k2 := range v`, so an inner map is the enumeration of its keys. -/
abbrev Graph := List (GoString × List GoString)

/-- The expression `forward[a]`, as the enumeration of the keys of the inner map
(empty when `a` is not a key). -/
def Graph.get (forward : Graph) (a : GoString) : List GoString :=
  match forward with
  | [] => []
  | (k, v) :: rest => if k = a then v else Graph.get rest a

/-- The inner loop of lines 85-91 for one source `k`; `emit` is what the body does
with a kept edge. -/
def filterInner {β : Type} (emit : β → GoString → GoString → β) (set : GoString → Bool)
    (k : GoString) : List GoString → β → β
  | [], acc => acc
  | k2 :: rest, acc =>
    if !set k || !set k2 || k == k2 then filterInner emit set k rest acc
    else filterInner emit set k rest (emit acc k k2)

/-- The loop of lines 84-92; `emit` is what the body does with a kept edge. -/
def filterLoop {β : Type} (emit : β → GoString → GoString → β) (set : GoString → Bool) :
    Graph → β → β
  | [], acc => acc
  | (k, v) :: rest, acc => filterLoop emit set rest (filterInner emit set k v acc)

/-- The pairs `(k, k2)` for which the loop reaches the `Fprintf` of line 90, in the
order it reaches them. -/
def emittedEdges (forward : Graph) (set : GoString → Bool) : List (GoString × GoString) :=
  filterLoop (fun acc k k2 => acc ++ [(k, k2)]) set forward []

/-- The text `fmt.Fprintf(&in, "\t%q -> %q;\n", k, k2)` appends. -/
def edgeStatement (tbl : Nat → Bool) (k k2 : GoString) : GoString :=
  "\t".toList ++ Quote tbl k ++ " -> ".toList ++ Quote tbl k2 ++ ";\n".toList

/-- The content of the buffer `in` when `renderGraph` hands it to `dot`
(lines 81-93). -/
def graphDescription (tbl : Nat → Bool) (forward : Graph) (set : GoString → Bool) : GoString :=
  filterLoop (fun buf k k2 => buf ++ edgeStatement tbl k k2) set forward
    "digraph \"\" \x7b\n".toList ++ "\x7d".toList

/-- The test of line 86, negated: the edge `(k, k2)` is kept. -/
def keeps (set : GoString → Bool) (k k2 : GoString) : Bool :=
  !(!set k || !set k2 || k == k2)

/-- Closed form of the edges the loop keeps. -/
def keptEdges (forward : Graph) (set : GoString → Bool) : List (GoString × GoString) :=
  forward.flatMap (fun e => (e.2.filter (keeps set e.1)).map (fun k2 => (e.1, k2)))

/-- An enumeration of a Go map of sets: the sources are distinct keys and no
destination collection repeats an element. -/
def Graph.WellFormed (forward : Graph) : Prop :=
  (forward.map Prod.fst).Nodup ∧ ∀ e ∈ forward, e.2.Nodup

/-- Two enumerations of the same map: the same keys and, under every key, the same
destinations, each in any order. -/
def Graph.SameMap (g₁ g₂ : Graph) : Prop :=
  (g₁.map Prod.fst).Perm (g₂.map Prod.fst) ∧ ∀ a, (g₁.get a).Perm (g₂.get a)

/-- The forward edge map `{A:{B,D}, B:{C}, C:{A}}` of the scenario. -/
def scenarioGraph : Graph :=
  [("A".toList, ["B".toList, "D".toList]), ("B".toList, ["C".toList]),
   ("C".toList, ["A".toList])]

/-- The import paths `A, B, C` of the scenario. -/
def scenarioPaths : List GoString := ["A".toList, "B".toList, "C".toList]

/-- The scenario's map enumerated in another order. -/
def scenarioGraphReordered : Graph :=
  [("C".toList, ["A".toList]), ("A".toList, ["D".toList, "B".toList]),
   ("B".toList, ["C".toList])]

/-! ## Collaborators -/

/-- A Go `error` value: `none` is `nil`, `some msg` an error whose `Error()` is `msg`
(which is also what `%v` and `Fprintln` print for it). -/
abbrev GoError := Option GoString

/-- A `[]byte`. -/
abbrev Bytes := List UInt8

/-- The field of `build.Package` that the program reads. -/
structure Package where
  ImportPath : GoString

/-- `build.FindOnly`, the first `build.ImportMode` flag (`1 << iota`). -/
def FindOnly : Nat := 1

/-- `build.AllowBinary`. -/
def AllowBinary : Nat := 2

/-- `build.ImportComment`. -/
def ImportComment : Nat := 4

/-- `build.IgnoreVendor`. -/
def IgnoreVendor : Nat := 8

/-- What `importgraph.Build` and `importgraphutil.BuildNoTests` return, without the
reverse graph that `run` discards: each map is `nil` (`none`) or present. -/
structure BuildResult where
  forward : Option Graph
  graphErrors : Option (List (GoString × GoString))

/-- Statements of the request handler and of the goroutine it starts. -/
inductive Instr where
  | setHeader (key value : GoString)
  | write (body : Bytes)
  | go (body : List Instr)
  | sleep (d : Nat)
  | sendStop

/-- `time.Second`, in nanoseconds. -/
def second : Nat := 1000000000

/-- The handler registered for `/index.svg` (lines 107-115), for the rendered image
`graphSvg`. -/
def handler (graphSvg : Bytes) : List Instr :=
  [Instr.setHeader "Content-Type".toList "image/svg+xml".toList,
   Instr.write graphSvg,
   Instr.go [Instr.sleep second, Instr.sendStop]]

/-- Calls to collaborators and process-level effects, in the order the program makes
them. -/
inductive Event where
  | lookPath (file : GoString)
  | stderr (text : GoString)
  | exit (code : Nat)
  | flagParse
  | importPaths (args : List GoString)
  | getwd
  | bctxImport (path srcDir : GoString) (mode : Nat)
  | buildNoTests
  | build
  | dot (args : List GoString) (stdin : GoString)
  | displayHTMLInBrowser (mux : List (GoString × List Instr)) (suffix : GoString)

/-- The calls that go to the Build Environment: pattern expansion, `bctx.Import` and
the two graph builders. -/
def Event.isBuildEnvironmentCall : Event → Bool
  | Event.importPaths _ => true
  | Event.bctxImport _ _ _ => true
  | Event.buildNoTests => true
  | Event.build => true
  | _ => false

/-- The display server has been started. -/
def Event.isDisplay : Event → Bool
  | Event.displayHTMLInBrowser _ _ => true
  | _ => false

/-- The renderer has been invoked. -/
def Event.isDot : Event → Bool
  | Event.dot _ _ => true
  | _ => false

/-- Everything the program obtains from outside `main.go`. `flagParse` is the exit
code when `flag.Parse` ends the process, `fmtErrors` the text `%v` gives for the
builder's error map, `isPrintTable` the Unicode tables behind `%q`. -/
structure Env where
  lookPath : GoString → GoString × GoError
  flagParse : Option Nat
  args : List GoString
  testsFlag : Bool
  gotoolImportPaths : List GoString → List GoString
  getwd : GoString × GoError
  bctxImport : GoString → GoString → Nat → Package × GoError
  buildNoTests : BuildResult
  build : BuildResult
  dotOutput : List GoString → GoString → Bytes × GoError
  fmtErrors : List (GoString × GoString) → GoString
  isPrintTable : Nat → Bool

/-! ## `resolveLocalAndFind` -/

/-- The loop of lines 129-137 from index `i` on, `ips` being the slice built so far
and `tr` the calls made so far. Returns the pair of results together with the calls. -/
def resolveLoop (env : Env) (wd : GoString) :
    List GoString → Nat → List GoString → List Event →
      (Option (List GoString) × GoError) × List Event
  | [], _, ips, tr => ((some ips, none), tr)
  | path :: rest, i, ips, tr =>
    match env.bctxImport path wd IgnoreVendor with
    | (_, some err) =>
      ((none, some ("can't load package ".toList ++ Quote env.isPrintTable path
          ++ ": ".toList ++ err)),
        tr ++ [Event.bctxImport path wd IgnoreVendor])
    | (bpkg, none) =>
      resolveLoop env wd rest (i + 1) (ips.set i bpkg.ImportPath)
        (tr ++ [Event.bctxImport path wd IgnoreVendor])

/-- `resolveLocalAndFind(importPaths, bctx)` (lines 123-139), `bctx.Import` being
`env.bctxImport`: the returned pair (`none` is the `nil` slice) and the calls made. -/
def resolveLocalAndFind (env : Env) (importPaths : List GoString) :
    (Option (List GoString) × GoError) × List Event :=
  match env.getwd with
  | (_, some err) => ((none, some err), [Event.getwd])
  | (wd, none) =>
    resolveLoop env wd importPaths 0 (List.replicate importPaths.length []) [Event.getwd]

/-! ## `run` and the program -/

/-- The builder call of lines 70-75. -/
def buildGraph (env : Env) : BuildResult × List Event :=
  match env.testsFlag with
  | false => (env.buildNoTests, [Event.buildNoTests])
  | true => (env.build, [Event.build])

/-- `run()` (lines 57-119): the returned error and the calls made. A `nil` slice or
map ranges like an empty one. -/
def run (env : Env) : GoError × List Event :=
  let importPaths := env.gotoolImportPaths env.args
  let t₀ := [Event.importPaths env.args]
  match resolveLocalAndFind env importPaths with
  | ((_, some err), t₁) => (some err, t₀ ++ t₁)
  | ((ips, none), t₁) =>
    let set := importPathsSet (ips.getD [])
    match buildGraph env with
    | (⟨_, some graphErrors⟩, t₂) =>
      (some ("importgraph.Build: ".toList ++ env.fmtErrors graphErrors), t₀ ++ t₁ ++ t₂)
    | (⟨forward, none⟩, t₂) =>
      let input := graphDescription env.isPrintTable (forward.getD []) set
      let t₃ := [Event.dot ["-Tsvg".toList] input]
      match env.dotOutput ["-Tsvg".toList] input with
      | (_, some err) => (some ("renderGraph: ".toList ++ err), t₀ ++ t₁ ++ t₂ ++ t₃)
      | (graphSvg, none) =>
        (none, t₀ ++ t₁ ++ t₂ ++ t₃ ++
          [Event.displayHTMLInBrowser [("/index.svg".toList, handler graphSvg)]
            ".svg".toList])

/-- The whole process: the first `init` (lines 21-28), then `main` (lines 47-55; the
second `init` only sets the log flags). Returns the exit code and the trace. -/
def program (env : Env) : Nat × List Event :=
  match env.lookPath "dot".toList with
  | (_, some err) =>
    (1, [Event.lookPath "dot".toList,
      Event.stderr
        "`dot` command is required (try `brew install graphviz` to install it).\n".toList,
      Event.stderr (err ++ "\n".toList),
      Event.exit 1])
  | (_, none) =>
    match env.flagParse with
    | some code => (code, [Event.lookPath "dot".toList, Event.flagParse, Event.exit code])
    | none =>
      match run env with
      | (some err, t) =>
        (1, [Event.lookPath "dot".toList, Event.flagParse] ++ t
          ++ [Event.stderr (err ++ "\n".toList), Event.exit 1])
      | (none, t) => (0, [Event.lookPath "dot".toList, Event.flagParse] ++ t)

/-! ## Concrete environments -/

/-- The text `%v` gives for an error map whose entries are enumerated in key order. -/
def showErrors (errs : List (GoString × GoString)) : GoString :=
  "map[".toList ++ List.intercalate " ".toList (errs.map (fun e => e.1 ++ ":".toList ++ e.2))
    ++ "]".toList

/-- An environment for the scenario `{A:{B,D}, B:{C}, C:{A}}` with arguments `A B C`:
every package loads, the builders report no error and `dot` prints an image. -/
def scenarioEnv : Env where
  lookPath := fun _ => ("/usr/bin/dot".toList, none)
  flagParse := none
  args := scenarioPaths
  testsFlag := false
  gotoolImportPaths := fun args => args
  getwd := ("/wd".toList, none)
  bctxImport := fun path _ _ => (⟨path⟩, none)
  buildNoTests := ⟨some scenarioGraph, none⟩
  build := ⟨some scenarioGraph, none⟩
  dotOutput := fun _ _ => ([60, 115, 118, 103, 47, 62], none)
  fmtErrors := showErrors
  isPrintTable := fun _ => true

/-- The scenario with a second argument that does not load. -/
def brokenPackageEnv : Env :=
  { scenarioEnv with
    args := ["A".toList, "nope".toList, "C".toList]
    bctxImport := fun path _ _ =>
      if path = "nope".toList then (⟨[]⟩, some "cannot find package".toList)
      else (⟨path⟩, none) }

/-- The description `run` pipes to `dot` when resolution returned `ips` and the builder
returned `forward`. -/
def dotInput (env : Env) (ips : Option (List GoString)) (forward : Option Graph) : GoString :=
  graphDescription env.isPrintTable (forward.getD []) (importPathsSet (ips.getD []))

/-- The scenario, the builder reporting one per-package error next to the whole map. -/
def advisoryErrorEnv : Env :=
  { scenarioEnv with
    buildNoTests :=
      ⟨some scenarioGraph, some [("D".toList, "no buildable Go source files".toList)]⟩ }

/-- The scenario, `dot` exiting successfully without printing anything. -/
def emptyOutputEnv : Env :=
  { scenarioEnv with dotOutput := fun _ _ => ([], none) }

/-- The scenario, `dot` exiting with an error. -/
def dotFailsEnv : Env :=
  { scenarioEnv with dotOutput := fun _ _ => ([], some "exit status 1".toList) }

/-- The scenario on a machine without `dot`. -/
def noDotEnv : Env :=
  { scenarioEnv with
    lookPath := fun _ =>
      ([], some "exec: \"dot\": executable file not found in $PATH".toList) }

/-! ## A reader for the serialized description -/

/-- The opening brace, U+007B. -/
def lbrace : Char := Char.ofNat 123

/-- The closing brace, U+007D. -/
def rbrace : Char := Char.ofNat 125

/-- DOT white space between tokens. -/
def dotSpace (c : Char) : Bool :=
  c == ' ' || c == '\t' || c == '\n' || c == '\r'

/-- Drops leading white space. -/
def dotSkip : List Char → List Char
  | [] => []
  | c :: rest => if dotSpace c then dotSkip rest else c :: rest

/-- Consumes the token `tok`. -/
def dotExpect (tok s : List Char) : Option (List Char) :=
  if tok.isPrefixOf s then some (s.drop tok.length) else none

/-- The inside of a quoted DOT identifier, after its opening quote. The pair
backslash-quote is the only escape and stands for a quote; every other character, a
backslash not followed by a quote included, stands for itself; an unescaped quote
ends the identifier. Returns the identifier and the input after the closing quote. -/
def dotQuoted : List Char → Option (GoString × List Char)
  | [] => none
  | [c] => if c = dquote then some ([], []) else none
  | c :: d :: rest =>
    if c = dquote then some ([], d :: rest)
    else if c = backslash ∧ d = dquote then
      (dotQuoted rest).map (fun r => (dquote :: r.1, r.2))
    else (dotQuoted (d :: rest)).map (fun r => (c :: r.1, r.2))

/-- A quoted identifier, after optional white space. -/
def dotID (s : List Char) : Option (GoString × List Char) :=
  match dotSkip s with
  | [] => none
  | c :: rest => if c = dquote then dotQuoted rest else none

/-- The statement list of the graph body up to the closing brace, which must end the
input: edge statements `ID -> ID`, each optionally followed by a semicolon. `fuel`
bounds the number of statements read. -/
def dotStmts : Nat → List Char → Option (List (GoString × GoString))
  | 0, _ => none
  | fuel + 1, s =>
    match dotSkip s with
    | [] => none
    | c :: rest =>
      if c = rbrace then (if dotSkip rest = [] then some [] else none)
      else
        (dotID (c :: rest)).bind fun a =>
        (dotExpect "->".toList (dotSkip a.2)).bind fun s₂ =>
        (dotID s₂).bind fun b =>
        (dotStmts fuel
          (match dotSkip b.2 with
            | [] => []
            | d :: rest' => if d = ';' then rest' else d :: rest')).map
          fun es => (a.1, b.1) :: es

/-- The edges of a description `digraph ID \x7b stmts \x7d`, in the order of the edge
statements. -/
def parseDot (s : List Char) : Option (List (GoString × GoString)) :=
  (dotExpect "digraph".toList (dotSkip s)).bind fun s₁ =>
  (dotID s₁).bind fun name =>
  (dotExpect [lbrace] (dotSkip name.2)).bind fun s₃ =>
  dotStmts (s.length + 1) s₃

/-- A string `%q` writes out between the quotes without any escape but backslash-quote:
every character is printable and none is a backslash. -/
def plain (tbl : Nat → Bool) (s : GoString) : Prop :=
  ∀ c ∈ s, c ≠ backslash ∧ IsPrint tbl c.toNat = true

instance plain.decidable (tbl : Nat → Bool) (s : GoString) : Decidable (plain tbl s) := by
  unfold plain
  infer_instance

/-- A graph with a double quote in a package identifier. -/
def quotedGraph : Graph := [("a\"b".toList, ["c/d".toList])]

/-- The import paths of `quotedGraph`. -/
def quotedPaths : List GoString := ["a\"b".toList, "c/d".toList]

/-- A graph with a backslash in a package identifier. -/
def backslashGraph : Graph := [("a\\b".toList, ["c".toList])]

/-- The import paths of `backslashGraph`. -/
def backslashPaths : List GoString := ["a\\b".toList, "c".toList]

/-! ## The display server as a transition system -/

/-- What a client and the owner of the stop channel observe; `req` numbers the request
whose handler caused the effect. -/
inductive Obs where
  | request (req : Nat)
  | header (req : Nat) (key value : GoString)
  | body (req : Nat) (bytes : Bytes)
  | stop (req : Nat)

/-- A goroutine started for request `req`: the statements it still has to run, and the
instant (in nanoseconds) before which it does not run. -/
structure Goroutine where
  req : Nat
  wake : Nat
  code : List Instr

/-- The state of the server: the clock, the number of requests accepted, the
goroutines, and the time-stamped effects so far, oldest first. -/
structure Server where
  now : Nat
  nextReq : Nat
  goroutines : List Goroutine
  log : List (Nat × Obs)

/-- The server when `DisplayHTMLInBrowser` starts listening. -/
def Server.init : Server := ⟨0, 0, [], []⟩

/-- What can happen next: time passes, a request for the route arrives (the server
starts its handler in a new goroutine), or goroutine `i` runs one statement. -/
inductive Action where
  | tick (d : Nat)
  | request
  | run (i : Nat)

/-- One statement `instr` of goroutine `g`, whose remaining statements are `rest`, at
instant `now`: the goroutine afterwards, the goroutines it started and the effects. -/
def execInstr (now : Nat) (g : Goroutine) (rest : List Instr) :
    Instr → Goroutine × List Goroutine × List Obs
  | Instr.setHeader key value => (⟨g.req, g.wake, rest⟩, [], [Obs.header g.req key value])
  | Instr.write body => (⟨g.req, g.wake, rest⟩, [], [Obs.body g.req body])
  | Instr.go body => (⟨g.req, g.wake, rest⟩, [⟨g.req, now, body⟩], [])
  | Instr.sleep d => (⟨g.req, now + d, rest⟩, [], [])
  | Instr.sendStop => (⟨g.req, g.wake, rest⟩, [], [Obs.stop g.req])

/-- One transition of the server whose route runs `route`; `none` when the action is
not enabled (no such goroutine, a goroutine that is asleep or has finished). -/
def step (route : List Instr) (s : Server) : Action → Option Server
  | Action.tick d => some ⟨s.now + d, s.nextReq, s.goroutines, s.log⟩
  | Action.request =>
    some ⟨s.now, s.nextReq + 1, s.goroutines ++ [⟨s.nextReq, s.now, route⟩],
      s.log ++ [(s.now, Obs.request s.nextReq)]⟩
  | Action.run i =>
    match s.goroutines[i]? with
    | none => none
    | some g =>
      if g.wake ≤ s.now then
        match g.code with
        | [] => none
        | instr :: rest =>
          let r := execInstr s.now g rest instr
          some ⟨s.now, s.nextReq, s.goroutines.set i r.1 ++ r.2.1,
            s.log ++ r.2.2.map (fun o => (s.now, o))⟩
      else none

/-- The state after a sequence of actions, `none` when one of them is not enabled. -/
def exec (route : List Instr) : Server → List Action → Option Server
  | s, [] => some s
  | s, a :: as => (step route s a).bind fun s' => exec route s' as

/-- The statements the handler has left after its first `n`. -/
def handlerFrom (graphSvg : Bytes) (n : Nat) : List Instr := (handler graphSvg).drop n

/-- Where a goroutine of the server can be, given the effects logged so far. -/
def Goroutine.OK (graphSvg : Bytes) (log : List (Nat × Obs)) (g : Goroutine) : Prop :=
  g.code = handler graphSvg ∨
  (g.code = handlerFrom graphSvg 1 ∧
    ∃ t, (t, Obs.header g.req "Content-Type".toList "image/svg+xml".toList) ∈ log) ∨
  (g.code = handlerFrom graphSvg 2 ∧ ∃ t, (t, Obs.body g.req graphSvg) ∈ log) ∨
  g.code = [] ∨
  (g.code = [Instr.sleep second, Instr.sendStop] ∧ ∃ t, (t, Obs.body g.req graphSvg) ∈ log) ∨
  (g.code = [Instr.sendStop] ∧
    ∃ t, (t, Obs.body g.req graphSvg) ∈ log ∧ t + second ≤ g.wake)

/-- The log orders the effects of every request: a stop signal comes after the body of
its request, at least a second later, and a body is the image and comes after the
content type of its request. -/
def LogOK (graphSvg : Bytes) (log : List (Nat × Obs)) : Prop :=
  (∀ pre t r post, log = pre ++ (t, Obs.stop r) :: post →
    ∃ t', (t', Obs.body r graphSvg) ∈ pre ∧ t' + second ≤ t) ∧
  (∀ pre t r b post, log = pre ++ (t, Obs.body r b) :: post →
    b = graphSvg ∧
    ∃ t', (t', Obs.header r "Content-Type".toList "image/svg+xml".toList) ∈ pre)

/-- The invariant of the server. -/
def Server.Inv (graphSvg : Bytes) (s : Server) : Prop :=
  (∀ e ∈ s.log, e.1 ≤ s.now) ∧
  (∀ g ∈ s.goroutines, g.OK graphSvg s.log) ∧
  LogOK graphSvg s.log

/-- One request served to the end: the handler runs, a second passes, the stop signal
is sent. -/
def oneRequest : List Action :=
  [Action.request, Action.run 0, Action.run 0, Action.run 0, Action.run 1,
   Action.tick second, Action.run 1]

/-- Goroutine `g` belongs to request `r` and has statements left. -/
def Goroutine.live (r : Nat) (g : Goroutine) : Bool :=
  g.req == r && !g.code.isEmpty

/-- The effect is a stop signal caused by request `r`. -/
def Obs.isStop (r : Nat) : Obs → Bool
  | Obs.stop r' => r' == r
  | _ => false

/-- The stop signals request `r` has sent, plus its goroutines that are still running. -/
def Server.tokens (r : Nat) (s : Server) : Nat :=
  s.goroutines.countP (Goroutine.live r) + s.log.countP (fun e => e.2.isStop r)

/-- The state `oneRequest` leads to when the image is the single byte `60`. -/
def oneRequestServed : Server :=
  ⟨second, 1, [⟨0, 0, []⟩, ⟨0, second, []⟩],
    [(0, Obs.request 0),
     (0, Obs.header 0 "Content-Type".toList "image/svg+xml".toList),
     (0, Obs.body 0 [60]),
     (second, Obs.stop 0)]⟩

/-! ## Lemmas on the filter loop -/

theorem filterInner_append {γ : Type} (f : GoString → GoString → List γ)
    (set : GoString → Bool) (k : GoString) (v : List GoString) (acc : List γ) :
    filterInner (fun buf a b => buf ++ f a b) set k v acc
      = acc ++ ((v.filter (keeps set k)).map (fun k2 => (k, k2))).flatMap (fun e => f e.1 e.2) := by
  induction v generalizing acc with
  | nil => simp [filterInner]
  | cons k2 rest ih =>
    by_cases h : (!set k || !set k2 || k == k2) = true
    · have hk : keeps set k k2 = false := by simp [keeps, h]
      simp only [filterInner, h, if_true, ih, List.filter_cons, hk]
      simp
    · have hk : keeps set k k2 = true := by simpa [keeps] using h
      simp only [filterInner, h, if_false, ih, List.filter_cons, hk]
      simp [List.append_assoc]

theorem filterLoop_append {γ : Type} (f : GoString → GoString → List γ)
    (set : GoString → Bool) (forward : Graph) (acc : List γ) :
    filterLoop (fun buf a b => buf ++ f a b) set forward acc
      = acc ++ (keptEdges forward set).flatMap (fun e => f e.1 e.2) := by
  induction forward generalizing acc with
  | nil => simp [filterLoop, keptEdges]
  | cons e rest ih =>
    obtain ⟨k, v⟩ := e
    simp only [filterLoop, ih, filterInner_append]
    simp [keptEdges, List.append_assoc]

theorem emittedEdges_eq (forward : Graph) (set : GoString → Bool) :
    emittedEdges forward set = keptEdges forward set := by
  unfold emittedEdges
  rw [filterLoop_append (fun a b => [(a, b)])]
  induction keptEdges forward set with
  | nil => rfl
  | cons e es ih => simp

theorem importPathsSet_iff (importPaths : List GoString) (k : GoString) :
    importPathsSet importPaths k = true ↔ k ∈ importPaths := by
  unfold importPathsSet
  suffices h : ∀ (m : GoString → Bool),
      (importPaths.foldl (fun m importPath => fun k => if k = importPath then true else m k) m) k
        = true ↔ (k ∈ importPaths ∨ m k = true) by simpa using h (fun _ => false)
  induction importPaths with
  | nil => intro m; simp
  | cons p ps ih =>
    intro m
    simp only [List.foldl_cons, ih, List.mem_cons]
    by_cases hkp : k = p <;> simp [hkp]

theorem mem_keptEdges (forward : Graph) (set : GoString → Bool) (a b : GoString) :
    (a, b) ∈ keptEdges forward set ↔
      (∃ v, (a, v) ∈ forward ∧ b ∈ v) ∧ set a = true ∧ set b = true ∧ a ≠ b := by
  simp only [keptEdges, List.mem_flatMap, List.mem_map, List.mem_filter, keeps, Prod.exists]
  constructor
  · rintro ⟨k, v, hmem, k2, ⟨hk2, hkeep⟩, heq⟩
    simp only [Prod.mk.injEq] at heq
    obtain ⟨rfl, rfl⟩ := heq
    simp at hkeep
    exact ⟨⟨v, hmem, hk2⟩, hkeep.1.1, hkeep.1.2, hkeep.2⟩
  · rintro ⟨⟨v, hmem, hb⟩, ha, hsb, hne⟩
    exact ⟨a, v, hmem, b, ⟨hb, by simp [ha, hsb, hne]⟩, rfl⟩

theorem mem_get_iff (forward : Graph) (hkeys : (forward.map Prod.fst).Nodup) (a b : GoString) :
    b ∈ forward.get a ↔ ∃ v, (a, v) ∈ forward ∧ b ∈ v := by
  induction forward with
  | nil => simp [Graph.get]
  | cons e rest ih =>
    obtain ⟨k, v⟩ := e
    simp only [List.map_cons, List.nodup_cons, List.mem_map, Prod.exists, exists_and_right,
      exists_eq_right, not_exists] at hkeys
    by_cases hka : k = a
    · subst hka
      simp only [Graph.get, if_true, List.mem_cons, Prod.mk.injEq, true_and]
      constructor
      · intro h; exact ⟨v, Or.inl rfl, h⟩
      · rintro ⟨w, hw | hw, hb⟩
        · exact hw ▸ hb
        · exact absurd hw (hkeys.1 w)
    · simp only [Graph.get, hka, if_false, ih hkeys.2, List.mem_cons, Prod.mk.injEq]
      constructor
      · rintro ⟨w, hw, hb⟩; exact ⟨w, Or.inr hw, hb⟩
      · rintro ⟨w, hw | hw, hb⟩
        · exact absurd hw.1.symm hka
        · exact ⟨w, hw, hb⟩

/-! ## The subgraph filter and the serializer -/

theorem nodup_keptEdges (forward : Graph) (set : GoString → Bool)
    (h : forward.WellFormed) : (keptEdges forward set).Nodup := by
  obtain ⟨hk, hv⟩ := h
  unfold keptEdges
  rw [List.nodup_flatMap]
  refine ⟨fun e he => ?_, ?_⟩
  · exact ((hv e he).filter _).map (fun x y hxy => (Prod.mk.inj hxy).2)
  · rw [List.Nodup, List.pairwise_map] at hk
    refine hk.imp ?_
    intro x y hxy
    simp only [Function.onFun, List.disjoint_left, List.mem_map, List.mem_filter]
    rintro p ⟨k2, _, rfl⟩ ⟨k3, _, h3⟩
    exact hxy (Prod.mk.inj h3).1.symm

theorem mem_emittedEdges (forward : Graph) (importPaths : List GoString)
    (hkeys : (forward.map Prod.fst).Nodup) (a b : GoString) :
    (a, b) ∈ emittedEdges forward (importPathsSet importPaths) ↔
      a ∈ importPaths ∧ b ∈ importPaths ∧ b ∈ forward.get a ∧ a ≠ b := by
  rw [emittedEdges_eq, mem_keptEdges, mem_get_iff forward hkeys, importPathsSet_iff,
    importPathsSet_iff]
  tauto

/-- C1. For a forward edge map with distinct keys and the resolved set built from
`importPaths`, the filter loop emits the edge `(a, b)` if and only if `a` and `b` are
both resolved, `b` is in `forward[a]`, and `a` differs from `b`. In the scenario
`S = {A,B,C}`, `G = {A:{B,D}, B:{C}, C:{A}}` it emits exactly `(A,B)`, `(B,C)`, `(C,A)`. -/
theorem induced_subgraph_edges (forward : Graph) (importPaths : List GoString)
    (a b : GoString) (hkeys : (forward.map Prod.fst).Nodup) :
    ((a, b) ∈ emittedEdges forward (importPathsSet importPaths) ↔
      a ∈ importPaths ∧ b ∈ importPaths ∧ b ∈ forward.get a ∧ a ≠ b) ∧
    emittedEdges scenarioGraph (importPathsSet scenarioPaths)
      = [("A".toList, "B".toList), ("B".toList, "C".toList), ("C".toList, "A".toList)] :=
  ⟨mem_emittedEdges forward importPaths hkeys a b, by decide⟩

/-- The scenario satisfies the hypothesis of `induced_subgraph_edges`: `(A,B)` is emitted
and `(A,D)` is not. -/
theorem induced_subgraph_edges_witness :
    (scenarioGraph.map Prod.fst).Nodup ∧
    (("A".toList, "B".toList) ∈ emittedEdges scenarioGraph (importPathsSet scenarioPaths) ↔
      "A".toList ∈ scenarioPaths ∧ "B".toList ∈ scenarioPaths ∧
        "B".toList ∈ scenarioGraph.get "A".toList ∧ "A".toList ≠ "B".toList) ∧
    (("A".toList, "D".toList) ∈ emittedEdges scenarioGraph (importPathsSet scenarioPaths) ↔
      "A".toList ∈ scenarioPaths ∧ "D".toList ∈ scenarioPaths ∧
        "D".toList ∈ scenarioGraph.get "A".toList ∧ "A".toList ≠ "D".toList) :=
  ⟨by decide,
   (induced_subgraph_edges scenarioGraph scenarioPaths "A".toList "B".toList (by decide)).1,
   (induced_subgraph_edges scenarioGraph scenarioPaths "A".toList "D".toList (by decide)).1⟩

theorem graphDescription_eq (tbl : Nat → Bool) (forward : Graph) (set : GoString → Bool) :
    graphDescription tbl forward set
      = "digraph \"\" \x7b\n".toList
        ++ (emittedEdges forward set).flatMap (fun e => edgeStatement tbl e.1 e.2)
        ++ "\x7d".toList := by
  unfold graphDescription
  rw [filterLoop_append (fun a b => edgeStatement tbl a b), emittedEdges_eq]

/-- C5. The description handed to the renderer is the line `digraph "" {`, then for
every emitted edge one line made of a tab, the quoted source, ` -> `, the quoted
destination and `;`, then the closing brace. With an empty resolved set no edge is
emitted and the description is the header line followed by the closing brace, whatever
the forward edge map is. -/
theorem serialized_description (tbl : Nat → Bool) (forward : Graph)
    (importPaths : List GoString) :
    graphDescription tbl forward (importPathsSet importPaths)
      = "digraph \"\" \x7b\n".toList
        ++ (emittedEdges forward (importPathsSet importPaths)).flatMap
            (fun e => "\t".toList ++ Quote tbl e.1 ++ " -> ".toList ++ Quote tbl e.2
              ++ ";\n".toList)
        ++ "\x7d".toList ∧
    emittedEdges forward (importPathsSet []) = [] ∧
    graphDescription tbl forward (importPathsSet []) = "digraph \"\" \x7b\n\x7d".toList := by
  have hempty : emittedEdges forward (importPathsSet []) = [] := by
    rw [emittedEdges_eq, List.eq_nil_iff_forall_not_mem]
    rintro ⟨a, b⟩ hmem
    have := (mem_keptEdges forward _ a b).1 hmem
    simp [importPathsSet] at this
  refine ⟨graphDescription_eq tbl forward _, hempty, ?_⟩
  rw [graphDescription_eq, hempty]
  rfl

/-- C6. For two enumerations of the same map of sets (distinct keys, duplicate-free
destination collections), the filter emits the same edges with the same multiplicities,
every qualifying edge is emitted exactly once under either enumeration, and the two
runs yield the same edge set. -/
theorem filter_order_independent (g₁ g₂ : Graph) (importPaths : List GoString)
    (h₁ : g₁.WellFormed) (h₂ : g₂.WellFormed) (hsame : g₁.SameMap g₂) :
    (emittedEdges g₁ (importPathsSet importPaths)).Perm
      (emittedEdges g₂ (importPathsSet importPaths)) ∧
    (∀ a b, a ∈ importPaths → b ∈ importPaths → b ∈ g₁.get a → a ≠ b →
      (emittedEdges g₁ (importPathsSet importPaths)).countP (fun e => decide (e = (a, b))) = 1 ∧
      (emittedEdges g₂ (importPathsSet importPaths)).countP (fun e => decide (e = (a, b))) = 1) ∧
    (∀ e, e ∈ emittedEdges g₁ (importPathsSet importPaths) ↔
      e ∈ emittedEdges g₂ (importPathsSet importPaths)) := by
  have hmem : ∀ e, e ∈ emittedEdges g₁ (importPathsSet importPaths) ↔
      e ∈ emittedEdges g₂ (importPathsSet importPaths) := by
    rintro ⟨a, b⟩
    rw [mem_emittedEdges g₁ importPaths h₁.1, mem_emittedEdges g₂ importPaths h₂.1,
      (hsame.2 a).mem_iff]
  have hn₁ : (emittedEdges g₁ (importPathsSet importPaths)).Nodup := by
    rw [emittedEdges_eq]; exact nodup_keptEdges g₁ _ h₁
  have hn₂ : (emittedEdges g₂ (importPathsSet importPaths)).Nodup := by
    rw [emittedEdges_eq]; exact nodup_keptEdges g₂ _ h₂
  refine ⟨(List.perm_ext_iff_of_nodup hn₁ hn₂).2 hmem, ?_, hmem⟩
  intro a b ha hb hab hne
  have hin : (a, b) ∈ emittedEdges g₁ (importPathsSet importPaths) :=
    (mem_emittedEdges g₁ importPaths h₁.1 a b).2 ⟨ha, hb, hab, hne⟩
  exact ⟨List.count_eq_one_of_mem hn₁ hin, List.count_eq_one_of_mem hn₂ ((hmem _).1 hin)⟩

/-- The scenario enumerated in two orders. -/
theorem filter_order_independent_witness :
    scenarioGraph.WellFormed ∧ scenarioGraphReordered.WellFormed ∧
    scenarioGraph.SameMap scenarioGraphReordered ∧
    (emittedEdges scenarioGraph (importPathsSet scenarioPaths)).Perm
      (emittedEdges scenarioGraphReordered (importPathsSet scenarioPaths)) ∧
    (emittedEdges scenarioGraphReordered (importPathsSet scenarioPaths)).countP
      (fun e => decide (e = ("A".toList, "B".toList))) = 1 := by
  have h₁ : scenarioGraph.WellFormed := ⟨by decide, by decide⟩
  have h₂ : scenarioGraphReordered.WellFormed := ⟨by decide, by decide⟩
  have hs : scenarioGraph.SameMap scenarioGraphReordered := by
    refine ⟨by decide, fun a => ?_⟩
    by_cases hA : ['A'] = a
    · subst hA; decide
    · by_cases hB : ['B'] = a
      · subst hB; decide
      · by_cases hC : ['C'] = a
        · subst hC; decide
        · simp [scenarioGraph, scenarioGraphReordered, Graph.get, hA, hB, hC]
  have h := filter_order_independent scenarioGraph scenarioGraphReordered scenarioPaths h₁ h₂ hs
  exact ⟨h₁, h₂, hs, h.1, (h.2.1 "A".toList "B".toList (by decide) (by decide) (by decide)
    (by decide)).2⟩

/-! ## The path resolver -/

theorem resolveLoop_ok (env : Env) (wd : GoString) (paths : List GoString)
    (hall : ∀ q ∈ paths, (env.bctxImport q wd IgnoreVendor).2 = none)
    (done : List GoString) (tr : List Event) :
    resolveLoop env wd paths done.length (done ++ List.replicate paths.length []) tr
      = ((some (done ++ paths.map (fun q => (env.bctxImport q wd IgnoreVendor).1.ImportPath)),
          none),
        tr ++ paths.map (fun q => Event.bctxImport q wd IgnoreVendor)) := by
  induction paths generalizing done tr with
  | nil => simp [resolveLoop]
  | cons p rest ih =>
    have hp : (env.bctxImport p wd IgnoreVendor).2 = none := hall p (List.mem_cons_self _ _)
    have hrest : ∀ q ∈ rest, (env.bctxImport q wd IgnoreVendor).2 = none :=
      fun q hq => hall q (List.mem_cons_of_mem _ hq)
    have hset : (done ++ List.replicate (p :: rest).length ([] : GoString)).set done.length
          (env.bctxImport p wd IgnoreVendor).1.ImportPath
        = (done ++ [(env.bctxImport p wd IgnoreVendor).1.ImportPath])
            ++ List.replicate rest.length [] := by
      rw [List.set_append_right _ _ (Nat.le_refl _)]
      simp [List.replicate_succ]
    have hstep : resolveLoop env wd (p :: rest) done.length
          (done ++ List.replicate (p :: rest).length []) tr
        = resolveLoop env wd rest (done.length + 1)
            ((done ++ List.replicate (p :: rest).length ([] : GoString)).set done.length
              (env.bctxImport p wd IgnoreVendor).1.ImportPath)
            (tr ++ [Event.bctxImport p wd IgnoreVendor]) := by
      rcases hq : env.bctxImport p wd IgnoreVendor with ⟨bpkg, e⟩
      rw [hq] at hp
      simp only at hp
      subst hp
      simp only [resolveLoop, hq]
    have hlen : done.length + 1 = (done ++ [(env.bctxImport p wd IgnoreVendor).1.ImportPath]).length := by
      simp
    rw [hstep, hset, hlen, ih hrest]
    simp

theorem resolveLoop_fail (env : Env) (wd : GoString) (pre : List GoString) (p : GoString)
    (post : List GoString) (cause : GoString)
    (hpre : ∀ q ∈ pre, (env.bctxImport q wd IgnoreVendor).2 = none)
    (hp : (env.bctxImport p wd IgnoreVendor).2 = some cause)
    (i : Nat) (ips : List GoString) (tr : List Event) :
    resolveLoop env wd (pre ++ p :: post) i ips tr
      = ((none, some ("can't load package ".toList ++ Quote env.isPrintTable p
            ++ ": ".toList ++ cause)),
        tr ++ (pre ++ [p]).map (fun q => Event.bctxImport q wd IgnoreVendor)) := by
  induction pre generalizing i ips tr with
  | nil =>
    rcases hq : env.bctxImport p wd IgnoreVendor with ⟨bpkg, e⟩
    rw [hq] at hp
    simp only at hp
    subst hp
    simp [resolveLoop, hq]
  | cons q rest ih =>
    have hq : (env.bctxImport q wd IgnoreVendor).2 = none := hpre q (List.mem_cons_self _ _)
    rcases hq' : env.bctxImport q wd IgnoreVendor with ⟨bpkg, e⟩
    rw [hq'] at hq
    simp only at hq
    subst hq
    have h := ih (fun x hx => hpre x (List.mem_cons_of_mem _ hx)) (i + 1)
      (ips.set i bpkg.ImportPath) (tr ++ [Event.bctxImport q wd IgnoreVendor])
    simp only [List.cons_append, resolveLoop, hq']
    exact h.trans (by simp)

theorem first_failure {α : Type} (ok : α → Prop) (l : List α) (h : ∃ q ∈ l, ¬ ok q) :
    ∃ pre p post, l = pre ++ p :: post ∧ (∀ q ∈ pre, ok q) ∧ ¬ ok p := by
  induction l with
  | nil => simp at h
  | cons x xs ih =>
    by_cases hx : ok x
    · obtain ⟨q, hq, hnq⟩ := h
      have hq' : q ∈ xs := by
        rcases List.mem_cons.1 hq with rfl | hq'
        · exact absurd hx hnq
        · exact hq'
      obtain ⟨pre, p, post, rfl, hpre, hp⟩ := ih ⟨q, hq', hnq⟩
      refine ⟨x :: pre, p, post, rfl, ?_, hp⟩
      intro y hy
      rcases List.mem_cons.1 hy with rfl | hy'
      · exact hx
      · exact hpre y hy'
    · exact ⟨[], x, xs, rfl, by simp, hx⟩

/-- C2. When the working directory is obtainable and at least one path fails to import,
`resolveLocalAndFind` returns the nil list together with the error
`can't load package <%q of p>: <cause>`, where `p` is the first failing path in input
order and `cause` the error the build context gave for it. -/
theorem resolve_failure (env : Env) (importPaths : List GoString) (wd : GoString)
    (hwd : env.getwd = (wd, none))
    (hfail : ∃ q ∈ importPaths, (env.bctxImport q wd IgnoreVendor).2 ≠ none) :
    ∃ pre p post cause, importPaths = pre ++ p :: post ∧
      (∀ q ∈ pre, (env.bctxImport q wd IgnoreVendor).2 = none) ∧
      (env.bctxImport p wd IgnoreVendor).2 = some cause ∧
      (resolveLocalAndFind env importPaths).1
        = (none, some ("can't load package ".toList ++ Quote env.isPrintTable p
            ++ ": ".toList ++ cause)) := by
  obtain ⟨pre, p, post, hsplit, hpre, hp⟩ :=
    first_failure (fun q => (env.bctxImport q wd IgnoreVendor).2 = none) importPaths hfail
  obtain ⟨cause, hcause⟩ := Option.ne_none_iff_exists'.1 hp
  refine ⟨pre, p, post, cause, hsplit, hpre, hcause, ?_⟩
  subst hsplit
  simp only [resolveLocalAndFind, hwd]
  rw [resolveLoop_fail env wd pre p post cause hpre hcause]

/-- The arguments `A nope C`, of which `nope` does not load. -/
theorem resolve_failure_witness :
    brokenPackageEnv.getwd = ("/wd".toList, none) ∧
    (∃ q ∈ brokenPackageEnv.args,
      (brokenPackageEnv.bctxImport q "/wd".toList IgnoreVendor).2 ≠ none) ∧
    ∃ pre p post cause, brokenPackageEnv.args = pre ++ p :: post ∧
      (∀ q ∈ pre, (brokenPackageEnv.bctxImport q "/wd".toList IgnoreVendor).2 = none) ∧
      (brokenPackageEnv.bctxImport p "/wd".toList IgnoreVendor).2 = some cause ∧
      (resolveLocalAndFind brokenPackageEnv brokenPackageEnv.args).1
        = (none, some ("can't load package ".toList ++ Quote brokenPackageEnv.isPrintTable p
            ++ ": ".toList ++ cause)) :=
  have hfail : ∃ q ∈ brokenPackageEnv.args,
      (brokenPackageEnv.bctxImport q "/wd".toList IgnoreVendor).2 ≠ none :=
    ⟨"nope".toList, by decide, by decide⟩
  ⟨rfl, hfail, resolve_failure brokenPackageEnv brokenPackageEnv.args "/wd".toList rfl hfail⟩

/-- C4. When the working directory is obtainable and every path imports,
`resolveLocalAndFind` returns a nil error and a list as long as the input whose `i`-th
element is the `ImportPath` the build context returned for the `i`-th path; the calls
made are `os.Getwd` and then, in input order, one `Import` of each path relative to the
working directory in mode `IgnoreVendor`, which does not contain the `FindOnly` bit. -/
theorem resolve_success (env : Env) (importPaths : List GoString) (wd : GoString)
    (hwd : env.getwd = (wd, none))
    (hall : ∀ q ∈ importPaths, (env.bctxImport q wd IgnoreVendor).2 = none) :
    ∃ ips, resolveLocalAndFind env importPaths
        = ((some ips, none),
            Event.getwd :: importPaths.map (fun q => Event.bctxImport q wd IgnoreVendor)) ∧
      ips.length = importPaths.length ∧
      (∀ (i : Nat) (path : GoString), importPaths[i]? = some path →
        ips[i]? = some (env.bctxImport path wd IgnoreVendor).1.ImportPath) ∧
      IgnoreVendor &&& FindOnly = 0 := by
  refine ⟨importPaths.map (fun q => (env.bctxImport q wd IgnoreVendor).1.ImportPath),
    ?_, by simp, ?_, by decide⟩
  · simp only [resolveLocalAndFind, hwd]
    have h := resolveLoop_ok env wd importPaths hall [] [Event.getwd]
    simpa using h
  · intro i path hi
    simp [List.getElem?_map, hi]

/-- The scenario, in which every package loads. -/
theorem resolve_success_witness :
    scenarioEnv.getwd = ("/wd".toList, none) ∧
    (∀ q ∈ scenarioPaths, (scenarioEnv.bctxImport q "/wd".toList IgnoreVendor).2 = none) ∧
    ∃ ips, resolveLocalAndFind scenarioEnv scenarioPaths
        = ((some ips, none),
            Event.getwd ::
              scenarioPaths.map (fun q => Event.bctxImport q "/wd".toList IgnoreVendor)) ∧
      ips.length = scenarioPaths.length ∧
      (∀ (i : Nat) (path : GoString), scenarioPaths[i]? = some path →
        ips[i]? = some (scenarioEnv.bctxImport path "/wd".toList IgnoreVendor).1.ImportPath) ∧
      IgnoreVendor &&& FindOnly = 0 :=
  ⟨rfl, fun _ _ => rfl,
    resolve_success scenarioEnv scenarioPaths "/wd".toList rfl (fun _ _ => rfl)⟩

/-! ## `run` and the program -/

theorem resolveLoop_trace (env : Env) (wd : GoString) (paths : List GoString) (i : Nat)
    (ips : List GoString) (tr : List Event) :
    ∀ ev ∈ (resolveLoop env wd paths i ips tr).2,
      ev ∈ tr ∨ ∃ path, ev = Event.bctxImport path wd IgnoreVendor := by
  induction paths generalizing i ips tr with
  | nil => intro ev hev; exact Or.inl hev
  | cons p rest ih =>
    intro ev hev
    rcases hq : env.bctxImport p wd IgnoreVendor with ⟨bpkg, _ | err⟩
    · simp only [resolveLoop, hq] at hev
      rcases ih _ _ _ ev hev with h | h
      · rcases List.mem_append.1 h with h | h
        · exact Or.inl h
        · exact Or.inr ⟨p, by simpa using h⟩
      · exact Or.inr h
    · simp only [resolveLoop, hq] at hev
      rcases List.mem_append.1 hev with h | h
      · exact Or.inl h
      · exact Or.inr ⟨p, by simpa using h⟩

theorem resolve_trace (env : Env) (paths : List GoString) :
    ∀ ev ∈ (resolveLocalAndFind env paths).2,
      ev = Event.getwd ∨ ∃ path wd, ev = Event.bctxImport path wd IgnoreVendor := by
  intro ev hev
  rcases hwd : env.getwd with ⟨wd, _ | err⟩
  · simp only [resolveLocalAndFind, hwd] at hev
    rcases resolveLoop_trace env wd paths _ _ _ ev hev with h | ⟨path, h⟩
    · exact Or.inl (by simpa using h)
    · exact Or.inr ⟨path, wd, h⟩
  · simp only [resolveLocalAndFind, hwd] at hev
    exact Or.inl (by simpa using hev)

theorem resolve_trace_any (env : Env) (paths : List GoString) :
    (resolveLocalAndFind env paths).2.any Event.isDot = false ∧
    (resolveLocalAndFind env paths).2.any Event.isDisplay = false := by
  constructor <;>
  · rw [List.any_eq_false]
    intro ev hev
    rcases resolve_trace env paths ev hev with rfl | ⟨path, wd, rfl⟩ <;> simp [Event.isDot, Event.isDisplay]

theorem buildGraph_trace (env : Env) :
    (buildGraph env).2.any Event.isDot = false ∧
    (buildGraph env).2.any Event.isDisplay = false := by
  unfold buildGraph
  cases env.testsFlag <;> simp [Event.isDot, Event.isDisplay]

/-- C7 fails as stated: the builder returns the whole forward edge map together with
one per-package error, and `run` returns the error `importgraph.Build: ...` without
invoking the renderer or starting the display server. -/
theorem per_package_errors_counterexample :
    advisoryErrorEnv.buildNoTests.forward = some scenarioGraph ∧
    advisoryErrorEnv.buildNoTests.graphErrors
      = some [("D".toList, "no buildable Go source files".toList)] ∧
    (run advisoryErrorEnv).1
      = some "importgraph.Build: map[D:no buildable Go source files]".toList ∧
    (run advisoryErrorEnv).2.any Event.isDot = false ∧
    (run advisoryErrorEnv).2.any Event.isDisplay = false := by
  decide

/-- C7, amended. Once resolution has succeeded, `run` returns the graph-build error
`importgraph.Build: <errors>` (and neither renders nor displays) whenever the
builder's error map is non-nil, whether or not the forward edge map is present; when
the error map is nil, `run` goes on to serialize the filtered graph and to invoke the
renderer on it, and any error it then returns is a render failure. -/
theorem graph_errors_decide_failure (env : Env) (ips : Option (List GoString))
    (t₁ : List Event)
    (hres : resolveLocalAndFind env (env.gotoolImportPaths env.args) = ((ips, none), t₁)) :
    (∀ graphErrors, (buildGraph env).1.graphErrors = some graphErrors →
      (run env).1 = some ("importgraph.Build: ".toList ++ env.fmtErrors graphErrors) ∧
      (run env).2.any Event.isDot = false ∧
      (run env).2.any Event.isDisplay = false) ∧
    ((buildGraph env).1.graphErrors = none →
      Event.dot ["-Tsvg".toList] (dotInput env ips (buildGraph env).1.forward) ∈ (run env).2 ∧
      ((run env).1 = none ∨ ∃ cause, (run env).1 = some ("renderGraph: ".toList ++ cause))) := by
  have ht := resolve_trace_any env (env.gotoolImportPaths env.args)
  rw [hres] at ht
  have hb := buildGraph_trace env
  rcases hbuild : buildGraph env with ⟨⟨forward, graphErrors⟩, t₂⟩
  rw [hbuild] at hb
  constructor
  · intro errs herrs
    simp only at herrs
    subst herrs
    simp only [run, hres, hbuild]
    refine ⟨trivial, ?_, ?_⟩
    · simp [List.any_append, ht.1, hb.1, Event.isDot]
    · simp [List.any_append, ht.2, hb.2, Event.isDisplay]
  · intro hnone
    simp only at hnone
    subst hnone
    rcases hdot : env.dotOutput ["-Tsvg".toList]
      (graphDescription env.isPrintTable (forward.getD []) (importPathsSet (ips.getD [])))
      with ⟨out, _ | err⟩
    · simp only [run, hres, hbuild, hdot, dotInput]
      exact ⟨by simp, Or.inl trivial⟩
    · simp only [run, hres, hbuild, hdot, dotInput]
      exact ⟨by simp, Or.inr ⟨err, rfl⟩⟩

/-- The scenario with one per-package error: `run` fails before rendering. -/
theorem graph_errors_decide_failure_witness :
    resolveLocalAndFind advisoryErrorEnv
        (advisoryErrorEnv.gotoolImportPaths advisoryErrorEnv.args)
      = ((some scenarioPaths, none),
          Event.getwd :: scenarioPaths.map
            (fun q => Event.bctxImport q "/wd".toList IgnoreVendor)) ∧
    (run advisoryErrorEnv).1
      = some ("importgraph.Build: ".toList
          ++ advisoryErrorEnv.fmtErrors [("D".toList, "no buildable Go source files".toList)]) ∧
    (run advisoryErrorEnv).2.any Event.isDot = false ∧
    (run advisoryErrorEnv).2.any Event.isDisplay = false :=
  ⟨rfl, (graph_errors_decide_failure advisoryErrorEnv (some scenarioPaths) _ rfl).1 _ rfl⟩

/-- C8 fails as stated: a renderer that exits successfully with zero bytes of output
does not make `run` fail; `run` returns nil and starts the display server. -/
theorem empty_output_counterexample :
    emptyOutputEnv.dotOutput ["-Tsvg".toList]
        (dotInput emptyOutputEnv (some scenarioPaths) (some scenarioGraph)) = ([], none) ∧
    Event.dot ["-Tsvg".toList]
        (dotInput emptyOutputEnv (some scenarioPaths) (some scenarioGraph))
      ∈ (run emptyOutputEnv).2 ∧
    (run emptyOutputEnv).1 = none ∧
    (run emptyOutputEnv).2.any Event.isDisplay = true := by
  refine ⟨rfl, ?_, by decide, by decide⟩
  simp [run, emptyOutputEnv, scenarioEnv, resolveLocalAndFind, resolveLoop, buildGraph,
    scenarioPaths, dotInput]

/-- C8, amended. Once resolution and the graph build have succeeded, `run` returns a
render failure `renderGraph: <cause>` and starts no display server if and only if the
renderer invocation returned an error; when the invocation returns no error, `run`
returns nil and starts the display server with a handler for the bytes received,
empty or not. -/
theorem render_failure_iff (env : Env) (ips : Option (List GoString)) (t₁ : List Event)
    (forward : Option Graph)
    (hres : resolveLocalAndFind env (env.gotoolImportPaths env.args) = ((ips, none), t₁))
    (hbuild : (buildGraph env).1 = ⟨forward, none⟩) :
    (((∃ cause, (run env).1 = some ("renderGraph: ".toList ++ cause)) ∧
        (run env).2.any Event.isDisplay = false) ↔
      (env.dotOutput ["-Tsvg".toList] (dotInput env ips forward)).2 ≠ none) ∧
    (∀ out cause, env.dotOutput ["-Tsvg".toList] (dotInput env ips forward) = (out, some cause) →
      (run env).1 = some ("renderGraph: ".toList ++ cause) ∧
      (run env).2.any Event.isDisplay = false) ∧
    (∀ graphSvg, env.dotOutput ["-Tsvg".toList] (dotInput env ips forward) = (graphSvg, none) →
      (run env).1 = none ∧
      Event.displayHTMLInBrowser [("/index.svg".toList, handler graphSvg)] ".svg".toList
        ∈ (run env).2) := by
  have ht := resolve_trace_any env (env.gotoolImportPaths env.args)
  rw [hres] at ht
  have hb := buildGraph_trace env
  rcases hbg : buildGraph env with ⟨res, t₂⟩
  rw [hbg] at hb hbuild
  simp only at hbuild
  subst hbuild
  have hfail : ∀ out cause,
      env.dotOutput ["-Tsvg".toList] (dotInput env ips forward) = (out, some cause) →
      (run env).1 = some ("renderGraph: ".toList ++ cause) ∧
      (run env).2.any Event.isDisplay = false := by
    intro out cause hdot
    simp only [dotInput] at hdot
    simp only [run, hres, hbg, hdot]
    exact ⟨trivial, by simp [List.any_append, ht.2, hb.2, Event.isDisplay]⟩
  have hok : ∀ graphSvg,
      env.dotOutput ["-Tsvg".toList] (dotInput env ips forward) = (graphSvg, none) →
      (run env).1 = none ∧
      Event.displayHTMLInBrowser [("/index.svg".toList, handler graphSvg)] ".svg".toList
        ∈ (run env).2 := by
    intro graphSvg hdot
    simp only [dotInput] at hdot
    simp only [run, hres, hbg, hdot]
    exact ⟨trivial, by simp⟩
  refine ⟨?_, hfail, hok⟩
  rcases hdot : env.dotOutput ["-Tsvg".toList] (dotInput env ips forward) with ⟨out, _ | err⟩
  · have h := (hok out hdot).1
    simp [h]
  · have h := hfail out err hdot
    simp only [ne_eq, reduceCtorEq, not_false_eq_true, iff_true]
    exact ⟨⟨err, h.1⟩, h.2⟩

/-- The scenario with a failing renderer. -/
theorem render_failure_iff_witness :
    resolveLocalAndFind dotFailsEnv (dotFailsEnv.gotoolImportPaths dotFailsEnv.args)
      = ((some scenarioPaths, none),
          Event.getwd :: scenarioPaths.map
            (fun q => Event.bctxImport q "/wd".toList IgnoreVendor)) ∧
    (buildGraph dotFailsEnv).1 = ⟨some scenarioGraph, none⟩ ∧
    (run dotFailsEnv).1 = some ("renderGraph: ".toList ++ "exit status 1".toList) ∧
    (run dotFailsEnv).2.any Event.isDisplay = false :=
  ⟨rfl, rfl,
    (render_failure_iff dotFailsEnv (some scenarioPaths) _ (some scenarioGraph) rfl rfl).2.1
      [] "exit status 1".toList rfl⟩

/-- C9. When `dot` cannot be located, the process ends in the first `init` with exit
code 1 after printing the renderer-missing diagnostic and the lookup error: `main` does
not run (no `flag.Parse`), and the trace contains no Build Environment call. -/
theorem renderer_missing_fail_fast (env : Env) (path err : GoString)
    (h : env.lookPath "dot".toList = (path, some err)) :
    program env
      = (1, [Event.lookPath "dot".toList,
          Event.stderr
            "`dot` command is required (try `brew install graphviz` to install it).\n".toList,
          Event.stderr (err ++ "\n".toList),
          Event.exit 1]) ∧
    (program env).1 ≠ 0 ∧
    (∀ ev ∈ (program env).2, ev.isBuildEnvironmentCall = false) ∧
    Event.flagParse ∉ (program env).2 := by
  have hp : program env
      = (1, [Event.lookPath "dot".toList,
          Event.stderr
            "`dot` command is required (try `brew install graphviz` to install it).\n".toList,
          Event.stderr (err ++ "\n".toList),
          Event.exit 1]) := by
    simp only [program, h]
  rw [hp]
  refine ⟨rfl, by simp, ?_, ?_⟩
  · intro ev hev
    simp only [List.mem_cons, List.mem_singleton, List.not_mem_nil, or_false] at hev
    rcases hev with rfl | rfl | rfl | rfl <;> rfl
  · simp

/-- The scenario on a machine without `dot`. -/
theorem renderer_missing_fail_fast_witness :
    noDotEnv.lookPath "dot".toList
      = ([], some "exec: \"dot\": executable file not found in $PATH".toList) ∧
    (program noDotEnv).1 = 1 ∧
    (∀ ev ∈ (program noDotEnv).2, ev.isBuildEnvironmentCall = false) :=
  have h := renderer_missing_fail_fast noDotEnv []
    "exec: \"dot\": executable file not found in $PATH".toList rfl
  ⟨rfl, congrArg Prod.fst h.1, h.2.2.1⟩

/-! ## Reading the description back -/

/-- C3 fails as stated: for the edge from `a\b` to `c` the serializer writes
`"a\\b" -> "c";`, which a reader whose only escape is backslash-quote reads as an edge
from `a\\b` (two backslashes); the serialized edge is not among the edges read. -/
theorem roundtrip_counterexample :
    emittedEdges backslashGraph (importPathsSet backslashPaths)
      = [("a\\b".toList, "c".toList)] ∧
    graphDescription (fun _ => true) backslashGraph (importPathsSet backslashPaths)
      = "digraph \"\" \x7b\n\t\"a\\\\b\" -> \"c\";\n\x7d".toList ∧
    parseDot (graphDescription (fun _ => true) backslashGraph (importPathsSet backslashPaths))
      = some [("a\\\\b".toList, "c".toList)] ∧
    ("a\\b".toList, "c".toList) ∉ [("a\\\\b".toList, "c".toList)] := by
  decide


theorem appendEscapedRune_plain (tbl : Nat → Bool) (c : Char) (hb : c ≠ backslash)
    (hp : IsPrint tbl c.toNat = true) :
    appendEscapedRune tbl c = if c = dquote then [backslash, dquote] else [c] := by
  unfold appendEscapedRune
  by_cases hq : c = dquote
  · simp [hq]
  · simp [hq, hb, hp]

theorem dotQuoted_close (rest : List Char) : dotQuoted (dquote :: rest) = some ([], rest) := by
  cases rest with
  | nil => simp [dotQuoted]
  | cons d rest => simp [dotQuoted]

theorem dotQuoted_escape (t : List Char) :
    dotQuoted (backslash :: dquote :: t) = (dotQuoted t).map (fun r => (dquote :: r.1, r.2)) := by
  have h : backslash ≠ dquote := by decide
  simp [dotQuoted, h]

theorem dotQuoted_char (c : Char) (t : List Char) (hq : c ≠ dquote) (hb : c ≠ backslash)
    (ht : t ≠ []) :
    dotQuoted (c :: t) = (dotQuoted t).map (fun r => (c :: r.1, r.2)) := by
  cases t with
  | nil => exact absurd rfl ht
  | cons d rest => simp [dotQuoted, hq, hb]

theorem dotQuoted_quote (tbl : Nat → Bool) (s : GoString) (hs : plain tbl s)
    (rest : List Char) :
    dotQuoted (s.flatMap (appendEscapedRune tbl) ++ dquote :: rest) = some (s, rest) := by
  induction s with
  | nil => simpa using dotQuoted_close rest
  | cons c s ih =>
    have hc := hs c (List.mem_cons_self _ _)
    have ih' := ih (fun x hx => hs x (List.mem_cons_of_mem _ hx))
    rw [List.flatMap_cons, appendEscapedRune_plain tbl c hc.1 hc.2]
    by_cases hq : c = dquote
    · subst hq
      simp only [if_true, List.cons_append, List.nil_append]
      rw [dotQuoted_escape, ih']
      rfl
    · simp only [hq, if_false, List.cons_append, List.nil_append]
      rw [dotQuoted_char c _ hq hc.1 (by simp), ih']
      rfl

theorem edgeStatement_append (tbl : Nat → Bool) (a b : GoString) (r : List Char) :
    edgeStatement tbl a b ++ r
      = '\t' :: dquote :: (a.flatMap (appendEscapedRune tbl) ++ dquote ::
          ' ' :: '-' :: '>' :: ' ' :: dquote ::
            (b.flatMap (appendEscapedRune tbl) ++ dquote :: ';' :: '\n' :: r)) := by
  have h₁ : "\t".toList = ['\t'] := rfl
  have h₂ : " -> ".toList = [' ', '-', '>', ' '] := rfl
  have h₃ : ";\n".toList = [';', '\n'] := rfl
  simp [edgeStatement, Quote, h₁, h₂, h₃]

theorem dotStmts_statements (tbl : Nat → Bool) (edges : List (GoString × GoString))
    (hplain : ∀ e ∈ edges, plain tbl e.1 ∧ plain tbl e.2) (fuel : Nat)
    (hfuel : edges.length < fuel) :
    dotStmts fuel
        ('\n' :: (edges.flatMap (fun e => edgeStatement tbl e.1 e.2) ++ [rbrace]))
      = some edges := by
  induction edges generalizing fuel with
  | nil =>
    obtain ⟨f, rfl⟩ : ∃ f, fuel = f + 1 := ⟨fuel - 1, by simp at hfuel; omega⟩
    have h₁ : dotSpace '\n' = true := by decide
    have h₂ : dotSpace rbrace = false := by decide
    simp [dotStmts, dotSkip, h₁, h₂]
  | cons e es ih =>
    obtain ⟨a, b⟩ := e
    obtain ⟨f, rfl⟩ : ∃ f, fuel = f + 1 := ⟨fuel - 1, by omega⟩
    have hab := hplain (a, b) (List.mem_cons_self _ _)
    have ih' := ih (fun x hx => hplain x (List.mem_cons_of_mem _ hx)) f
      (by simp at hfuel; omega)
    have h₁ : dotSpace '\n' = true := by decide
    have h₂ : dotSpace '\t' = true := by decide
    have h₃ : dotSpace dquote = false := by decide
    have h₄ : dquote ≠ rbrace := by decide
    have h₅ : dotSpace ' ' = true := by decide
    have h₆ : dotSpace '-' = false := by decide
    have h₇ : dotSpace ';' = false := by decide
    have h₈ : "->".toList = ['-', '>'] := rfl
    rw [List.flatMap_cons, List.append_assoc, edgeStatement_append]
    simp only [dotStmts, dotSkip, h₁, h₂, h₃, if_true, if_false, h₄, dotID, Bool.false_eq_true]
    rw [dotQuoted_quote tbl a hab.1]
    simp only [Option.some_bind, dotSkip, h₅, h₆, if_true, if_false, Bool.false_eq_true, h₈,
      dotExpect, List.isPrefixOf, beq_self_eq_true, Bool.and_self, List.drop, List.length_cons,
      List.length_nil, h₃, dotID]
    rw [dotQuoted_quote tbl b hab.2]
    simp only [Option.some_bind, dotSkip, h₇, if_false, Bool.false_eq_true, if_true, ih',
      Option.map_some']

theorem length_le_statements (tbl : Nat → Bool) (edges : List (GoString × GoString)) :
    edges.length ≤ (edges.flatMap (fun e => edgeStatement tbl e.1 e.2)).length := by
  induction edges with
  | nil => simp
  | cons e es ih =>
    rw [List.flatMap_cons, List.length_append, List.length_cons]
    have : 1 ≤ (edgeStatement tbl e.1 e.2).length := by
      have h := edgeStatement_append tbl e.1 e.2 []
      rw [List.append_nil] at h
      rw [h]
      simp
    omega

theorem parseDot_description (tbl : Nat → Bool) (edges : List (GoString × GoString))
    (hplain : ∀ e ∈ edges, plain tbl e.1 ∧ plain tbl e.2) :
    parseDot ("digraph \"\" \x7b\n".toList
        ++ edges.flatMap (fun e => edgeStatement tbl e.1 e.2) ++ "\x7d".toList)
      = some edges := by
  have h₁ : "digraph \"\" \x7b\n".toList
      = ['d', 'i', 'g', 'r', 'a', 'p', 'h', ' ', dquote, dquote, ' ', lbrace, '\n'] := by decide
  have h₂ : "\x7d".toList = [rbrace] := by decide
  have h₃ : "digraph".toList = ['d', 'i', 'g', 'r', 'a', 'p', 'h'] := rfl
  have h₄ : dotSpace 'd' = false := by decide
  have h₅ : dotSpace ' ' = true := by decide
  have h₆ : dotSpace dquote = false := by decide
  have h₇ : dotSpace lbrace = false := by decide
  have hlen := length_le_statements tbl edges
  rw [h₁, h₂]
  simp only [parseDot, List.cons_append, List.nil_append, dotSkip, h₄, if_false,
    Bool.false_eq_true, dotExpect, h₃, List.isPrefixOf, beq_self_eq_true, Bool.and_self,
    if_true, List.drop, List.length_cons, List.length_nil, Option.some_bind, dotID, h₅, h₆,
    dotQuoted_close, h₇]
  exact dotStmts_statements tbl edges hplain _
    (by simp only [List.length_cons, List.length_append, List.length_nil]; omega)


/-- C3, amended. When every identifier of the induced subgraph consists of printable
characters other than the backslash, reading the serialized description back with a
DOT reader whose only escape inside a quoted string is backslash-quote yields exactly
the serialized edges, in order. -/
theorem roundtrip_plain (tbl : Nat → Bool) (forward : Graph) (importPaths : List GoString)
    (hplain : ∀ e ∈ emittedEdges forward (importPathsSet importPaths),
      plain tbl e.1 ∧ plain tbl e.2) :
    parseDot (graphDescription tbl forward (importPathsSet importPaths))
      = some (emittedEdges forward (importPathsSet importPaths)) := by
  rw [graphDescription_eq]
  exact parseDot_description tbl _ hplain

/-- An identifier containing a double quote is read back unchanged. -/
theorem roundtrip_plain_witness :
    (∀ e ∈ emittedEdges quotedGraph (importPathsSet quotedPaths),
      plain (fun _ => true) e.1 ∧ plain (fun _ => true) e.2) ∧
    parseDot (graphDescription (fun _ => true) quotedGraph (importPathsSet quotedPaths))
      = some [("a\"b".toList, "c/d".toList)] :=
  ⟨by decide, roundtrip_plain (fun _ => true) quotedGraph quotedPaths (by decide)⟩

/-! ## The display server -/

theorem getElem_split {α : Type} (l : List α) (i : Nat) (x : α) (h : l[i]? = some x) :
    ∃ pre post, l = pre ++ x :: post ∧ ∀ y, l.set i y = pre ++ y :: post := by
  induction l generalizing i with
  | nil => simp at h
  | cons a l ih =>
    cases i with
    | zero =>
      simp only [List.getElem?_cons_zero, Option.some.injEq] at h
      subst h
      exact ⟨[], l, rfl, fun y => rfl⟩
    | succ i =>
      simp only [List.getElem?_cons_succ] at h
      obtain ⟨pre, post, hl, hset⟩ := ih i h
      exact ⟨a :: pre, post, by rw [hl]; rfl, fun y => by rw [List.set_cons_succ, hset y]; rfl⟩

theorem append_singleton_split {α : Type} (l pre post : List α) (e x : α)
    (h : l ++ [e] = pre ++ x :: post) :
    (pre = l ∧ x = e ∧ post = []) ∨ ∃ post', l = pre ++ x :: post' ∧ post = post' ++ [e] := by
  rcases List.eq_nil_or_concat post with rfl | ⟨post', y, rfl⟩
  · have h' : l ++ [e] = pre ++ [x] := h
    obtain ⟨h₁, h₂⟩ := List.append_inj' h' rfl
    exact Or.inl ⟨h₁.symm, (List.cons.inj h₂).1.symm, rfl⟩
  · have h' : l ++ [e] = (pre ++ x :: post') ++ [y] := by
      rw [h]; simp
    obtain ⟨h₁, h₂⟩ := List.append_inj' h' rfl
    refine Or.inr ⟨post', h₁, ?_⟩
    rw [(List.cons.inj h₂).1]
    simp

theorem Goroutine.OK.mono (graphSvg : Bytes) (log extra : List (Nat × Obs)) (g : Goroutine)
    (h : g.OK graphSvg log) : g.OK graphSvg (log ++ extra) := by
  rcases h with h | ⟨h, t, ht⟩ | ⟨h, t, ht⟩ | h | ⟨h, t, ht⟩ | ⟨h, t, ht, hw⟩
  · exact Or.inl h
  · exact Or.inr (Or.inl ⟨h, t, List.mem_append_left _ ht⟩)
  · exact Or.inr (Or.inr (Or.inl ⟨h, t, List.mem_append_left _ ht⟩))
  · exact Or.inr (Or.inr (Or.inr (Or.inl h)))
  · exact Or.inr (Or.inr (Or.inr (Or.inr (Or.inl ⟨h, t, List.mem_append_left _ ht⟩))))
  · exact Or.inr (Or.inr (Or.inr (Or.inr (Or.inr ⟨h, t, List.mem_append_left _ ht, hw⟩))))

theorem LogOK.append (graphSvg : Bytes) (log : List (Nat × Obs)) (now : Nat) (o : Obs)
    (h : LogOK graphSvg log)
    (hstop : ∀ r, o = Obs.stop r →
      ∃ t', (t', Obs.body r graphSvg) ∈ log ∧ t' + second ≤ now)
    (hbody : ∀ r b, o = Obs.body r b → b = graphSvg ∧
      ∃ t', (t', Obs.header r "Content-Type".toList "image/svg+xml".toList) ∈ log) :
    LogOK graphSvg (log ++ [(now, o)]) := by
  constructor
  · intro pre t r post heq
    rcases append_singleton_split _ _ _ _ _ heq with ⟨rfl, hx, -⟩ | ⟨post', hl, -⟩
    · obtain ⟨rfl, rfl⟩ := Prod.mk.inj hx
      exact hstop r rfl
    · exact h.1 pre t r post' hl
  · intro pre t r b post heq
    rcases append_singleton_split _ _ _ _ _ heq with ⟨rfl, hx, -⟩ | ⟨post', hl, -⟩
    · obtain ⟨rfl, rfl⟩ := Prod.mk.inj hx
      exact hbody r b rfl
    · exact h.2 pre t r b post' hl

theorem step_inv (graphSvg : Bytes) (s s' : Server) (a : Action) (hinv : s.Inv graphSvg)
    (hstep : step (handler graphSvg) s a = some s') : s'.Inv graphSvg := by
  obtain ⟨htime, hgo, hlog⟩ := hinv
  cases a with
  | tick d =>
    simp only [step, Option.some.injEq] at hstep
    subst hstep
    exact ⟨fun e he => Nat.le_trans (htime e he) (Nat.le_add_right _ _), hgo, hlog⟩
  | request =>
    simp only [step, Option.some.injEq] at hstep
    subst hstep
    refine ⟨?_, ?_, ?_⟩
    · intro e he
      rcases List.mem_append.1 he with he | he
      · exact htime e he
      · rw [List.mem_singleton.1 he]
    · intro g hg
      rcases List.mem_append.1 hg with hg | hg
      · exact (hgo g hg).mono graphSvg _ _ _
      · rw [List.mem_singleton.1 hg]
        exact Or.inl rfl
    · exact hlog.append graphSvg _ _ _ (fun r hr => by cases hr) (fun r b hr => by cases hr)
  | run i =>
    simp only [step] at hstep
    rcases hget : s.goroutines[i]? with _ | g
    · simp [hget] at hstep
    · rw [hget] at hstep
      simp only at hstep
      by_cases hw : g.wake ≤ s.now
      · simp only [hw, if_true] at hstep
        obtain ⟨pre, post, hsplit, hset⟩ := getElem_split _ _ _ hget
        have hg : g ∈ s.goroutines := by rw [hsplit]; simp
        have hothers : ∀ g' ∈ pre ++ post, g' ∈ s.goroutines := by
          intro g' hg'
          rw [hsplit]
          rcases List.mem_append.1 hg' with h | h
          · exact List.mem_append_left _ h
          · exact List.mem_append_right _ (List.mem_cons_of_mem _ h)
        rcases hgo g hg with hc | ⟨hc, t, ht⟩ | ⟨hc, t, ht⟩ | hc | ⟨hc, t, ht⟩ | ⟨hc, t, ht, hwk⟩
        · rw [hc] at hstep
          simp only [handler, execInstr, Option.some.injEq, hset, List.map_cons, List.map_nil,
            List.append_nil] at hstep
          subst hstep
          refine ⟨?_, ?_, ?_⟩
          · intro e he
            rcases List.mem_append.1 he with he | he
            · exact htime e he
            · rw [List.mem_singleton.1 he]
          · intro g' hg'
            simp only [List.mem_append, List.mem_cons] at hg'
            rcases hg' with h | rfl | h
            · exact (hgo g' (hothers g' (List.mem_append_left _ h))).mono graphSvg _ _ _
            · exact Or.inr (Or.inl ⟨rfl, s.now, by simp⟩)
            · exact (hgo g' (hothers g' (List.mem_append_right _ h))).mono graphSvg _ _ _
          · exact hlog.append graphSvg _ _ _ (fun r hr => by cases hr)
              (fun r b hr => by cases hr)
        · rw [hc] at hstep
          simp only [handlerFrom, handler, List.drop, execInstr, Option.some.injEq, hset,
            List.map_cons, List.map_nil, List.append_nil] at hstep
          subst hstep
          refine ⟨?_, ?_, ?_⟩
          · intro e he
            rcases List.mem_append.1 he with he | he
            · exact htime e he
            · rw [List.mem_singleton.1 he]
          · intro g' hg'
            simp only [List.mem_append, List.mem_cons] at hg'
            rcases hg' with h | rfl | h
            · exact (hgo g' (hothers g' (List.mem_append_left _ h))).mono graphSvg _ _ _
            · exact Or.inr (Or.inr (Or.inl ⟨rfl, s.now, by simp⟩))
            · exact (hgo g' (hothers g' (List.mem_append_right _ h))).mono graphSvg _ _ _
          · exact hlog.append graphSvg _ _ _ (fun r hr => by cases hr)
              (fun r b hr => by cases hr; exact ⟨rfl, t, ht⟩)
        · rw [hc] at hstep
          simp only [handlerFrom, handler, List.drop, execInstr, Option.some.injEq, hset,
            List.map_nil, List.append_nil] at hstep
          subst hstep
          refine ⟨htime, ?_, hlog⟩
          intro g' hg'
          simp only [List.mem_append, List.mem_cons, List.not_mem_nil, or_false] at hg'
          rcases hg' with (h | rfl | h) | rfl
          · exact hgo g' (hothers g' (List.mem_append_left _ h))
          · exact Or.inr (Or.inr (Or.inr (Or.inl rfl)))
          · exact hgo g' (hothers g' (List.mem_append_right _ h))
          · exact Or.inr (Or.inr (Or.inr (Or.inr (Or.inl ⟨rfl, t, ht⟩))))
        · rw [hc] at hstep
          simp at hstep
        · rw [hc] at hstep
          simp only [execInstr, Option.some.injEq, hset, List.map_nil, List.append_nil] at hstep
          subst hstep
          refine ⟨htime, ?_, hlog⟩
          intro g' hg'
          simp only [List.mem_append, List.mem_cons] at hg'
          rcases hg' with h | rfl | h
          · exact hgo g' (hothers g' (List.mem_append_left _ h))
          · exact Or.inr (Or.inr (Or.inr (Or.inr (Or.inr
              ⟨rfl, t, ht, Nat.add_le_add_right (htime _ ht) _⟩))))
          · exact hgo g' (hothers g' (List.mem_append_right _ h))
        · rw [hc] at hstep
          simp only [execInstr, Option.some.injEq, hset, List.map_cons, List.map_nil,
            List.append_nil] at hstep
          subst hstep
          refine ⟨?_, ?_, ?_⟩
          · intro e he
            rcases List.mem_append.1 he with he | he
            · exact htime e he
            · rw [List.mem_singleton.1 he]
          · intro g' hg'
            simp only [List.mem_append, List.mem_cons] at hg'
            rcases hg' with h | rfl | h
            · exact (hgo g' (hothers g' (List.mem_append_left _ h))).mono graphSvg _ _ _
            · exact Or.inr (Or.inr (Or.inr (Or.inl rfl)))
            · exact (hgo g' (hothers g' (List.mem_append_right _ h))).mono graphSvg _ _ _
          · exact hlog.append graphSvg _ _ _
              (fun r hr => by cases hr; exact ⟨t, ht, Nat.le_trans hwk hw⟩)
              (fun r b hr => by cases hr)
      · simp [hw] at hstep


theorem exec_inv (graphSvg : Bytes) (actions : List Action) (s s' : Server)
    (hinv : s.Inv graphSvg) (hexec : exec (handler graphSvg) s actions = some s') :
    s'.Inv graphSvg := by
  induction actions generalizing s with
  | nil =>
    simp only [exec, Option.some.injEq] at hexec
    exact hexec ▸ hinv
  | cons a as ih =>
    simp only [exec] at hexec
    rcases hstep : step (handler graphSvg) s a with _ | s₁
    · simp [hstep] at hexec
    · rw [hstep] at hexec
      exact ih s₁ (step_inv graphSvg s s₁ a hinv hstep) hexec

theorem init_inv (graphSvg : Bytes) : Server.init.Inv graphSvg := by
  refine ⟨by simp [Server.init], by simp [Server.init], ?_, ?_⟩
  · intro pre t r post h
    simp [Server.init] at h
  · intro pre t r b post h
    simp [Server.init] at h

theorem exec_no_request (route : List Instr) (actions : List Action) (s s' : Server)
    (hno : Action.request ∉ actions) (hg : s.goroutines = []) (hl : s.log = [])
    (hexec : exec route s actions = some s') : s'.log = [] := by
  induction actions generalizing s with
  | nil =>
    simp only [exec, Option.some.injEq] at hexec
    exact hexec ▸ hl
  | cons a as ih =>
    have hno' : Action.request ∉ as := fun h => hno (List.mem_cons_of_mem _ h)
    simp only [exec] at hexec
    cases a with
    | tick d =>
      simp only [step, Option.some_bind] at hexec
      exact ih ⟨s.now + d, s.nextReq, s.goroutines, s.log⟩ hno' hg hl hexec
    | request => exact absurd (List.mem_cons_self _ _) hno
    | run i => simp [step, hg] at hexec

theorem step_tokens (graphSvg : Bytes) (s s' : Server) (a : Action) (hinv : s.Inv graphSvg)
    (htok : ∀ r, s.tokens r = if r < s.nextReq then 1 else 0)
    (hstep : step (handler graphSvg) s a = some s') :
    ∀ r, s'.tokens r = if r < s'.nextReq then 1 else 0 := by
  obtain ⟨-, hgo, -⟩ := hinv
  intro r
  have hr := htok r
  cases a with
  | tick d =>
    simp only [step, Option.some.injEq] at hstep
    subst hstep
    exact hr
  | request =>
    simp only [step, Option.some.injEq] at hstep
    subst hstep
    simp only [Server.tokens, List.countP_append, List.countP_cons, List.countP_nil] at hr ⊢
    generalize List.countP (Goroutine.live r) s.goroutines = A at hr ⊢
    generalize List.countP (fun e : Nat × Obs => e.2.isStop r) s.log = B at hr ⊢
    by_cases h₁ : s.nextReq = r
    · simp [Goroutine.live, handler, Obs.isStop, h₁] at hr ⊢
      omega
    · have h₂ : r ≠ s.nextReq := fun h => h₁ h.symm
      simp only [Goroutine.live, handler, Obs.isStop, beq_iff_eq, h₁, false_and,
        Bool.false_eq_true, if_false, Bool.and_eq_true, decide_False] at hr ⊢
      split_ifs at hr ⊢ <;> omega
  | run i =>
    simp only [step] at hstep
    rcases hget : s.goroutines[i]? with _ | g
    · simp [hget] at hstep
    · rw [hget] at hstep
      simp only at hstep
      by_cases hw : g.wake ≤ s.now
      · simp only [hw, if_true] at hstep
        obtain ⟨pre, post, hsplit, hset⟩ := getElem_split _ _ _ hget
        have hg : g ∈ s.goroutines := by rw [hsplit]; simp
        simp only [Server.tokens, hsplit, List.countP_append, List.countP_cons] at hr
        rcases hgo g hg with hc | ⟨hc, -⟩ | ⟨hc, -⟩ | hc | ⟨hc, -⟩ | ⟨hc, -⟩ <;>
          rw [hc] at hstep <;>
          simp only [handlerFrom, handler, List.drop, execInstr, Option.some.injEq, hset,
            List.map_cons, List.map_nil, List.append_nil, reduceCtorEq] at hstep <;>
          subst hstep <;>
          simp only [Server.tokens, List.countP_append, List.countP_cons, List.countP_nil] <;>
          generalize List.countP (Goroutine.live r) pre = A at hr ⊢ <;>
          generalize List.countP (Goroutine.live r) post = B at hr ⊢ <;>
          generalize List.countP (fun e : Nat × Obs => e.2.isStop r) s.log = C at hr ⊢ <;>
          by_cases h₁ : g.req = r <;>
          simp [h₁, Goroutine.live, Obs.isStop, hc, handlerFrom, handler] at hr ⊢ <;>
          omega
      · simp [hw] at hstep


theorem exec_tokens (graphSvg : Bytes) (actions : List Action) (s s' : Server)
    (hinv : s.Inv graphSvg) (htok : ∀ r, s.tokens r = if r < s.nextReq then 1 else 0)
    (hexec : exec (handler graphSvg) s actions = some s') :
    ∀ r, s'.tokens r = if r < s'.nextReq then 1 else 0 := by
  induction actions generalizing s with
  | nil =>
    simp only [exec, Option.some.injEq] at hexec
    exact hexec ▸ htok
  | cons a as ih =>
    simp only [exec] at hexec
    rcases hstep : step (handler graphSvg) s a with _ | s₁
    · simp [hstep] at hexec
    · rw [hstep] at hexec
      exact ih s₁ (step_inv graphSvg s s₁ a hinv hstep)
        (step_tokens graphSvg s s₁ a hinv htok hstep) hexec

theorem stops_le_one (graphSvg : Bytes) (actions : List Action) (s : Server)
    (hexec : exec (handler graphSvg) Server.init actions = some s) (r : Nat) :
    s.log.countP (fun e => e.2.isStop r) ≤ 1 := by
  have h := exec_tokens graphSvg actions _ s (init_inv graphSvg)
    (fun r => by simp [Server.tokens, Server.init]) hexec r
  unfold Server.tokens at h
  split_ifs at h <;> omega

/-- C10. The handler sets `Content-Type` to `image/svg+xml`, then writes `graphSvg`,
then starts the goroutine that sleeps one second and sends the stop signal. In every
execution of the server, under every interleaving: a stop signal is preceded by the
body of its request, written at least one second earlier; a body is `graphSvg` itself
and is preceded by the content type of its request; a request causes at most one stop
signal; and without a request no stop signal is sent. -/
theorem handler_then_stop (graphSvg : Bytes) (actions : List Action) (s : Server)
    (hexec : exec (handler graphSvg) Server.init actions = some s) :
    handler graphSvg
      = [Instr.setHeader "Content-Type".toList "image/svg+xml".toList,
         Instr.write graphSvg,
         Instr.go [Instr.sleep 1000000000, Instr.sendStop]] ∧
    (∀ pre t r post, s.log = pre ++ (t, Obs.stop r) :: post →
      ∃ t', (t', Obs.body r graphSvg) ∈ pre ∧ t' + 1000000000 ≤ t) ∧
    (∀ pre t r b post, s.log = pre ++ (t, Obs.body r b) :: post →
      b = graphSvg ∧
      ∃ t', (t', Obs.header r "Content-Type".toList "image/svg+xml".toList) ∈ pre) ∧
    (∀ r, s.log.countP (fun e => e.2.isStop r) ≤ 1) ∧
    (Action.request ∉ actions → ∀ t r, (t, Obs.stop r) ∉ s.log) := by
  have hinv := exec_inv graphSvg actions _ s (init_inv graphSvg) hexec
  refine ⟨rfl, hinv.2.2.1, hinv.2.2.2, stops_le_one graphSvg actions s hexec, ?_⟩
  intro hno t r
  rw [exec_no_request _ actions _ s hno rfl rfl hexec]
  simp

/-- One request served to the end. -/
theorem handler_then_stop_witness :
    exec (handler [60]) Server.init oneRequest = some oneRequestServed ∧
    (∀ pre t r post, oneRequestServed.log = pre ++ (t, Obs.stop r) :: post →
      ∃ t', (t', Obs.body r [60]) ∈ pre ∧ t' + 1000000000 ≤ t) ∧
    (∀ r, oneRequestServed.log.countP (fun e => e.2.isStop r) ≤ 1) :=
  have h := handler_then_stop [60] oneRequest oneRequestServed rfl
  ⟨rfl, h.2.1, h.2.2.2.1⟩

end GoImportGraph
